import Mathlib

/-!
Verification of the core algorithms of a JSON parsing/beautifying editor.

The development shallowly embeds three components of the source:
* `calculateErrorRange` (error-range localization) from `src/App.tsx`;
* `getLineAndColumn` (offset to line/column mapping) from
  `src/components/ErrorMessage.tsx`;
* the recursive `JsonNode` tree renderer from the JSON viewer component.

Texts and messages are modelled as `List Char`; JavaScript's `-1` sentinel of
`String.lastIndexOf` becomes `Option Nat`, and `null` returns become `Option`.

The renderer is modelled twice, at two levels. The displayed text of one
render pass is `JsonNode`, parameterized by the collapse flags the pass reads,
an assignment `List Nat → Bool` from tree paths (a node's path of child
indices, whose length is exactly the `indentLevel` the source passes down).
The dynamics of those flags across clicks is `NodeState`/`toggleCollapse`:
each mounted `JsonNode` component instance owns one `useState` flag, a
collapsed node renders no children so their instances are unmounted and their
state discarded, and re-expanding mounts fresh child instances whose
`useState(indentLevel > 0)` starts collapsed.
-/

/-! ## Error-range resolver (`calculateErrorRange` of `src/App.tsx`) -/

/-- A highlight span `\x7bstart, end\x7d` over the source text. -/
structure Span where
  start : Nat
  «end» : Nat
deriving DecidableEq

/-- The character class of JavaScript's `\s` (the whitespace part of the
delimiter regex `/[\s\{\}\[\]\(\),:"]/`). -/
def jsWhitespace (c : Char) : Bool :=
  c = ' ' || c = '\t' || c = '\n' || c = '\r' || c = '\x0b' || c = '\x0c' ||
  c = '\u00A0' || c = '\u1680' || ('\u2000' ≤ c && c ≤ '\u200A') ||
  c = '\u2028' || c = '\u2029' || c = '\u202F' || c = '\u205F' ||
  c = '\u3000' || c = '\uFEFF'

/-- The structural-delimiter test, the regex `/[\s\{\}\[\]\(\),:"]/` of the
source (`\x7b` and `\x7d` are the brace characters). -/
def delimiters (c : Char) : Bool :=
  jsWhitespace c || c = '\x7b' || c = '\x7d' || c = '[' || c = ']' ||
  c = '(' || c = ')' || c = ',' || c = ':' || c = '\"'

/-- The literal prefix of the offset-extraction regex `/at position (\d+)/`. -/
def atPositionLit : List Char := "at position ".toList

/-- Decimal value of a digit run, the `parseInt(s, 10)` of the source on the
captured group (which is all digits). -/
def parseDigits (ds : List Char) : Nat :=
  ds.foldl (fun acc c => acc * 10 + (c.toNat - 48)) 0

/-- One attempted match of `/at position (\d+)/` anchored at the head of `s`:
the literal must be a prefix and at least one digit must follow; the captured
group is the maximal digit run (greedy `\d+`). -/
def tryPosition (s : List Char) : Option Nat :=
  if atPositionLit.isPrefixOf s then
    let ds := (s.drop atPositionLit.length).takeWhile Char.isDigit
    if ds.isEmpty then none else some (parseDigits ds)
  else none

/-- `errorMessage.match(/at position (\d+)/)` followed by `parseInt`:
the leftmost occurrence of the pattern wins, scanning start offsets left to
right exactly as the regex engine does. -/
def extractPosition : List Char → Option Nat
  | [] => none
  | c :: rest =>
    match tryPosition (c :: rest) with
    | some n => some n
    | none => extractPosition rest

/-- The recognized unterminated-input phrase tested with
`errorMessage.includes("Unexpected end of JSON input")`. -/
def unexpectedEndLit : List Char := "Unexpected end of JSON input".toList

/-- JavaScript's `String.prototype.includes`: `includes needle s` is `true`
exactly when `needle` occurs contiguously inside `s`. -/
def includes (needle : List Char) : List Char → Bool
  | [] => needle.isEmpty
  | c :: rest => needle.isPrefixOf (c :: rest) || includes needle rest

/-- `text.lastIndexOf('\n')`: the greatest index holding `'\n'`, with the
JavaScript `-1` sentinel rendered as `none`. -/
def lastIndexOfNewline : List Char → Option Nat
  | [] => none
  | c :: rest =>
    match lastIndexOfNewline rest with
    | some i => some (i + 1)
    | none => if c = '\n' then some 0 else none

/-- The backward expansion loop
`while (start > 0 && !delimiters.test(text[start - 1])) start--;`
of the source, recursing on the running value of `start`. -/
def expandLeft (text : List Char) : Nat → Nat
  | 0 => 0
  | n + 1 => if delimiters (text.getD n ' ') then n + 1 else expandLeft text n

/-- The forward expansion loop, with the remaining distance to the end of the
text made an explicit structural fuel so that the function computes by
kernel reduction. -/
def expandRightAux (text : List Char) : Nat → Nat → Nat
  | 0, e => e
  | fuel + 1, e =>
    if e < text.length then
      if delimiters (text.getD e ' ') then e else expandRightAux text fuel (e + 1)
    else e

/-- The forward expansion loop
`while (end < text.length && !delimiters.test(text[end])) end++;`
of the source. -/
def expandRight (text : List Char) (e : Nat) : Nat :=
  expandRightAux text (text.length - e) e

/-- `calculateErrorRange` of `src/App.tsx`: extract a position from the error
message, reject it when out of range, special-case the unterminated-input
phrase, highlight a single delimiter character, and otherwise expand to the
surrounding delimiter-free run with a degenerate-span fallback. `position < 0`
of the source is dropped: the captured group is all digits, so the parsed
position is a natural number. -/
def calculateErrorRange (text errorMessage : List Char) : Option Span :=
  match extractPosition errorMessage with
  | none => none
  | some position =>
    if position > text.length then none
    else if includes unexpectedEndLit errorMessage then
      some ⟨match lastIndexOfNewline text with
            | some i => i + 1
            | none => 0,
            text.length⟩
    else if position < text.length ∧ delimiters (text.getD position ' ') = true then
      some ⟨position, position + 1⟩
    else
      let start := expandLeft text position
      let e := expandRight text position
      if start = e ∧ e < text.length then
        some ⟨position, position + 1⟩
      else
        some ⟨start, e⟩

/-! ## Line/column mapper (`getLineAndColumn` of `src/components/ErrorMessage.tsx`) -/

/-- A one-based line/column position. -/
structure LineColumn where
  line : Nat
  column : Nat
deriving DecidableEq

/-- The scanning loop of `getLineAndColumn`: fold over the first `position`
characters (the loop reads `text[i]` for `0 ≤ i < position`, which is exactly
`text.take position`), carrying the running index `i`, `line`, and
`lastLineStart`. -/
def glcFold : List Char → Nat → Nat → Nat → Nat × Nat
  | [], _, line, lastLineStart => (line, lastLineStart)
  | c :: rest, i, line, lastLineStart =>
    if c = '\n' then glcFold rest (i + 1) (line + 1) (i + 1)
    else glcFold rest (i + 1) line lastLineStart

/-- `getLineAndColumn` of `src/components/ErrorMessage.tsx`. -/
def getLineAndColumn (text : List Char) (position : Nat) : Option LineColumn :=
  if position > text.length then none
  else
    let r := glcFold (text.take position) 0 1 0
    some ⟨r.1, position - r.2 + 1⟩

/-! ## Basic lemmas about the resolver's loops -/

theorem lastIndexOfNewline_lt_length (l : List Char) (i : Nat)
    (h : lastIndexOfNewline l = some i) : i < l.length := by
  induction l generalizing i with
  | nil => simp [lastIndexOfNewline] at h
  | cons c rest ih =>
    simp only [lastIndexOfNewline] at h
    cases hr : lastIndexOfNewline rest with
    | some j =>
      rw [hr] at h
      simp only [Option.some.injEq] at h
      subst h
      simp only [List.length_cons]
      exact Nat.succ_lt_succ (ih j hr)
    | none =>
      rw [hr] at h
      by_cases hc : c = '\n'
      · simp only [if_pos hc, Option.some.injEq] at h
        subst h
        simp
      · simp [if_neg hc] at h

theorem expandLeft_le (text : List Char) (n : Nat) : expandLeft text n ≤ n := by
  induction n with
  | zero => simp [expandLeft]
  | succ m ih =>
    simp only [expandLeft]
    split
    · exact Nat.le_refl _
    · exact Nat.le_trans ih (Nat.le_succ m)

theorem expandLeft_free (text : List Char) (n : Nat) :
    ∀ i, expandLeft text n ≤ i → i < n → delimiters (text.getD i ' ') = false := by
  induction n with
  | zero => intro i h1 h2; omega
  | succ m ih =>
    intro i h1 h2
    simp only [expandLeft] at h1
    by_cases hd : delimiters (text.getD m ' ') = true
    · rw [if_pos hd] at h1; omega
    · rw [if_neg hd] at h1
      rcases Nat.lt_succ_iff_lt_or_eq.mp h2 with h | h
      · exact ih i h1 h
      · subst h; simpa using hd

theorem expandLeft_boundary (text : List Char) (n : Nat) :
    expandLeft text n = 0 ∨ delimiters (text.getD (expandLeft text n - 1) ' ') = true := by
  induction n with
  | zero => left; rfl
  | succ m ih =>
    simp only [expandLeft]
    by_cases hd : delimiters (text.getD m ' ') = true
    · rw [if_pos hd]; right; simpa using hd
    · rw [if_neg hd]; exact ih

theorem expandRightAux_ge (text : List Char) (fuel : Nat) :
    ∀ e, e ≤ expandRightAux text fuel e := by
  induction fuel with
  | zero => intro e; simp [expandRightAux]
  | succ f ih =>
    intro e
    simp only [expandRightAux]
    split
    · split
      · exact Nat.le_refl _
      · exact Nat.le_trans (Nat.le_succ e) (ih (e + 1))
    · exact Nat.le_refl _

theorem expandRightAux_le (text : List Char) (fuel : Nat) :
    ∀ e, e ≤ text.length → expandRightAux text fuel e ≤ text.length := by
  induction fuel with
  | zero => intro e h; simpa [expandRightAux] using h
  | succ f ih =>
    intro e h
    simp only [expandRightAux]
    by_cases hl : e < text.length
    · rw [if_pos hl]
      split
      · exact h
      · exact ih (e + 1) hl
    · rw [if_neg hl]; exact h

theorem expandRightAux_free (text : List Char) (fuel : Nat) :
    ∀ e i, e ≤ i → i < expandRightAux text fuel e →
      delimiters (text.getD i ' ') = false := by
  induction fuel with
  | zero => intro e i h1 h2; simp [expandRightAux] at h2; omega
  | succ f ih =>
    intro e i h1 h2
    simp only [expandRightAux] at h2
    by_cases hl : e < text.length
    · rw [if_pos hl] at h2
      by_cases hd : delimiters (text.getD e ' ') = true
      · rw [if_pos hd] at h2; omega
      · rw [if_neg hd] at h2
        rcases Nat.eq_or_lt_of_le h1 with h | h
        · subst h; simpa using hd
        · exact ih (e + 1) i h h2
    · rw [if_neg hl] at h2; omega

theorem expandRightAux_boundary (text : List Char) (fuel : Nat) :
    ∀ e, text.length ≤ e + fuel → e ≤ text.length →
      expandRightAux text fuel e = text.length ∨
      delimiters (text.getD (expandRightAux text fuel e) ' ') = true := by
  induction fuel with
  | zero =>
    intro e h1 h2
    left
    simp only [expandRightAux]
    omega
  | succ f ih =>
    intro e h1 h2
    simp only [expandRightAux]
    by_cases hl : e < text.length
    · rw [if_pos hl]
      by_cases hd : delimiters (text.getD e ' ') = true
      · rw [if_pos hd]; right; exact hd
      · rw [if_neg hd]; exact ih (e + 1) (by omega) (by omega)
    · rw [if_neg hl]; left; omega

theorem expandRight_ge (text : List Char) (e : Nat) : e ≤ expandRight text e :=
  expandRightAux_ge text (text.length - e) e

theorem expandRight_le (text : List Char) (e : Nat) (h : e ≤ text.length) :
    expandRight text e ≤ text.length :=
  expandRightAux_le text (text.length - e) e h

theorem expandRight_free (text : List Char) (e : Nat) :
    ∀ i, e ≤ i → i < expandRight text e → delimiters (text.getD i ' ') = false :=
  expandRightAux_free text (text.length - e) e

theorem expandRight_boundary (text : List Char) (e : Nat) (h : e ≤ text.length) :
    expandRight text e = text.length ∨
    delimiters (text.getD (expandRight text e) ' ') = true :=
  expandRightAux_boundary text (text.length - e) e (by omega) h

theorem expandRight_advance (text : List Char) (e : Nat) (hl : e < text.length)
    (hd : delimiters (text.getD e ' ') = false) : e + 1 ≤ expandRight text e := by
  unfold expandRight
  obtain ⟨f, hf⟩ : ∃ f, text.length - e = f + 1 := ⟨text.length - e - 1, by omega⟩
  rw [hf]
  simp only [expandRightAux, if_pos hl]
  rw [if_neg (by rw [hd]; simp)]
  exact expandRightAux_ge text f (e + 1)

theorem expandRight_at_length (text : List Char) :
    expandRight text text.length = text.length := by
  unfold expandRight
  simp [Nat.sub_self, expandRightAux]

/-! ## Branch lemmas for `calculateErrorRange` -/

theorem calculateErrorRange_none_of_extract_none (T M : List Char)
    (h : extractPosition M = none) : calculateErrorRange T M = none := by
  simp [calculateErrorRange, h]

theorem calculateErrorRange_none_of_out_of_range (T M : List Char) (p : Nat)
    (hp : extractPosition M = some p) (h : T.length < p) :
    calculateErrorRange T M = none := by
  simp [calculateErrorRange, hp, h]

theorem calculateErrorRange_unexpectedEnd (T M : List Char) (p : Nat)
    (hp : extractPosition M = some p) (hle : p ≤ T.length)
    (hue : includes unexpectedEndLit M = true) :
    calculateErrorRange T M =
      some ⟨match lastIndexOfNewline T with
            | some i => i + 1
            | none => 0,
            T.length⟩ := by
  simp only [calculateErrorRange, hp]
  rw [if_neg (by omega), if_pos hue]

theorem calculateErrorRange_delim_branch (T M : List Char) (p : Nat)
    (hp : extractPosition M = some p) (hlt : p < T.length)
    (hd : delimiters (T.getD p ' ') = true)
    (hue : includes unexpectedEndLit M = false) :
    calculateErrorRange T M = some ⟨p, p + 1⟩ := by
  simp only [calculateErrorRange, hp]
  rw [if_neg (by omega), if_neg (by rw [hue]; simp), if_pos ⟨hlt, hd⟩]

theorem calculateErrorRange_expansion (T M : List Char) (p : Nat)
    (hp : extractPosition M = some p) (hle : p ≤ T.length)
    (hue : includes unexpectedEndLit M = false)
    (hnd : ¬(p < T.length ∧ delimiters (T.getD p ' ') = true)) :
    calculateErrorRange T M =
      if expandLeft T p = expandRight T p ∧ expandRight T p < T.length
      then some ⟨p, p + 1⟩
      else some ⟨expandLeft T p, expandRight T p⟩ := by
  simp only [calculateErrorRange, hp]
  rw [if_neg (by omega), if_neg (by rw [hue]; simp), if_neg hnd]

theorem expand_no_fallback (T : List Char) (p : Nat) (hle : p ≤ T.length)
    (hnd : p < T.length → delimiters (T.getD p ' ') = false) :
    ¬(expandLeft T p = expandRight T p ∧ expandRight T p < T.length) := by
  rintro ⟨heq, hlt⟩
  by_cases hplen : p < T.length
  · have h1 := expandRight_advance T p hplen (hnd hplen)
    have h2 := expandLeft_le T p
    omega
  · have hple : p = T.length := by omega
    rw [hple, expandRight_at_length] at hlt
    omega

theorem calculateErrorRange_inRange_bounds (T M : List Char) (p : Nat)
    (hp : extractPosition M = some p) (hle : p ≤ T.length) :
    ∃ s e, calculateErrorRange T M = some ⟨s, e⟩ ∧ s ≤ e ∧ e ≤ T.length := by
  by_cases hue : includes unexpectedEndLit M = true
  · cases hn : lastIndexOfNewline T with
    | some i =>
      refine ⟨i + 1, T.length, ?_, ?_, Nat.le_refl _⟩
      · rw [calculateErrorRange_unexpectedEnd T M p hp hle hue, hn]
      · have := lastIndexOfNewline_lt_length T i hn
        omega
    | none =>
      refine ⟨0, T.length, ?_, Nat.zero_le _, Nat.le_refl _⟩
      rw [calculateErrorRange_unexpectedEnd T M p hp hle hue, hn]
  · rw [Bool.not_eq_true] at hue
    by_cases hdl : p < T.length ∧ delimiters (T.getD p ' ') = true
    · exact ⟨p, p + 1, calculateErrorRange_delim_branch T M p hp hdl.1 hdl.2 hue,
        Nat.le_succ p, hdl.1⟩
    · have hexp := calculateErrorRange_expansion T M p hp hle hue hdl
      by_cases hfb : expandLeft T p = expandRight T p ∧ expandRight T p < T.length
      · rw [if_pos hfb] at hexp
        have hge := expandRight_ge T p
        exact ⟨p, p + 1, hexp, Nat.le_succ p, by omega⟩
      · rw [if_neg hfb] at hexp
        have h1 := expandLeft_le T p
        have h2 := expandRight_ge T p
        exact ⟨expandLeft T p, expandRight T p, hexp, by omega, expandRight_le T p hle⟩

/-- Claim C1 fails as stated: from the message `"at position 5"` a position (5)
is extracted, yet against the empty text the resolver returns `none` because
`5` exceeds the text length — so `none` is not returned only on extraction
failure. -/
theorem calculateErrorRange_absent_despite_position :
    extractPosition ("at position 5".toList) = some 5 ∧
    calculateErrorRange ([] : List Char) ("at position 5".toList) = none := by
  decide

/-- Claim C1 (amended): `calculateErrorRange T M` returns `none` exactly when
no decimal position follows the literal `"at position "` in `M` or the
extracted position exceeds `length T`; in every other case it returns a span
with `start ≤ end ≤ length T`. -/
theorem calculateErrorRange_absent_iff (T M : List Char) :
    (calculateErrorRange T M = none ↔
      extractPosition M = none ∨ ∃ p, extractPosition M = some p ∧ T.length < p) ∧
    (∀ s e, calculateErrorRange T M = some ⟨s, e⟩ → s ≤ e ∧ e ≤ T.length) := by
  cases hp : extractPosition M with
  | none =>
    constructor
    · rw [calculateErrorRange_none_of_extract_none T M hp]
      simp
    · intro s e h
      rw [calculateErrorRange_none_of_extract_none T M hp] at h
      exact absurd h (by simp)
  | some p =>
    by_cases hrange : T.length < p
    · rw [calculateErrorRange_none_of_out_of_range T M p hp hrange]
      constructor
      · constructor
        · intro _
          exact Or.inr ⟨p, rfl, hrange⟩
        · intro _
          rfl
      · intro s e h
        exact absurd h (by simp)
    · obtain ⟨s', e', hsome, h1, h2⟩ :=
        calculateErrorRange_inRange_bounds T M p hp (by omega)
      rw [hsome]
      constructor
      · constructor
        · intro h
          exact absurd h (by simp)
        · rintro (h | ⟨p', hp', hlt⟩)
          · exact absurd h (by simp)
          · simp only [Option.some.injEq] at hp'
            subst hp'
            exact absurd hlt hrange
      · intro s e h
        simp only [Option.some.injEq, Span.mk.injEq] at h
        obtain ⟨rfl, rfl⟩ := h
        exact ⟨h1, h2⟩

/-- Witness for claim C1: the amended statement instantiated at a concrete
text and message, alongside the concretely evaluated resolver output. -/
theorem calculateErrorRange_absent_iff_witness :
    ((calculateErrorRange ("ab".toList) ("at position 1".toList) = none ↔
      extractPosition ("at position 1".toList) = none ∨
      ∃ p, extractPosition ("at position 1".toList) = some p ∧
        ("ab".toList).length < p) ∧
     (∀ s e, calculateErrorRange ("ab".toList) ("at position 1".toList) =
        some ⟨s, e⟩ → s ≤ e ∧ e ≤ ("ab".toList).length)) ∧
    calculateErrorRange ("ab".toList) ("at position 1".toList) = some ⟨0, 2⟩ :=
  ⟨calculateErrorRange_absent_iff ("ab".toList) ("at position 1".toList), by decide⟩

/-! ## The unterminated-input scenario (claim C3) -/

/-- The example text of the unterminated-input scenario: the five characters
of an unclosed object opener with one key. -/
def unterminatedText : List Char := "\x7b\"a\":".toList

/-- An unterminated-input message carrying position 6. -/
def unterminatedMsg : List Char :=
  "Unexpected end of JSON input at position 6".toList

/-- Claim C3 fails as stated: the example text has length 5, the message
carries the recognized phrase and extracted position 6, yet the resolver
returns `none` (6 exceeds the text length), not the span from 0 to 6. -/
theorem unexpectedEnd_position_six_absent :
    unterminatedText.length = 5 ∧
    extractPosition unterminatedMsg = some 6 ∧
    includes unexpectedEndLit unterminatedMsg = true ∧
    calculateErrorRange unterminatedText unterminatedMsg = none := by
  decide

/-- Claim C3 (amended): on the text of length 5, a message with the
recognized phrase and extracted position 6 yields `none` (position out of
range), while any in-range extracted position yields the whole single line,
the span from 0 to 5 = `length`. -/
theorem unexpectedEnd_short_text_span (M : List Char) (p : Nat)
    (hp : extractPosition M = some p)
    (hue : includes unexpectedEndLit M = true) :
    (p = 6 → calculateErrorRange unterminatedText M = none) ∧
    (p ≤ 5 → calculateErrorRange unterminatedText M = some ⟨0, 5⟩) := by
  have hlen : unterminatedText.length = 5 := by decide
  constructor
  · intro h6
    subst h6
    exact calculateErrorRange_none_of_out_of_range unterminatedText M 6 hp (by omega)
  · intro hle
    have h := calculateErrorRange_unexpectedEnd unterminatedText M p hp (by omega) hue
    exact h.trans (by decide)

/-- Witness for claim C3 (amended): with position 5 extracted the whole text
is highlighted. -/
theorem unexpectedEnd_short_text_span_witness :
    calculateErrorRange unterminatedText
      ("Unexpected end of JSON input at position 5".toList) = some ⟨0, 5⟩ :=
  (unexpectedEnd_short_text_span
    ("Unexpected end of JSON input at position 5".toList) 5
    (by decide) (by decide)).2 (by decide)

/-! ## The token-expansion phase (claims C4, C9, C10) -/

/-- `isMaximalRun T p s e` says `[s, e)` is the maximal contiguous run of
non-delimiter characters around position `p`: it contains `p`, stays within
bounds, holds no delimiter, and cannot be extended on either side. -/
def isMaximalRun (T : List Char) (p s e : Nat) : Prop :=
  s ≤ p ∧ p ≤ e ∧ e ≤ T.length ∧
  (∀ i, i < e → s ≤ i → delimiters (T.getD i ' ') = false) ∧
  (s = 0 ∨ delimiters (T.getD (s - 1) ' ') = true) ∧
  (e = T.length ∨ delimiters (T.getD e ' ') = true)

instance (T : List Char) (p s e : Nat) : Decidable (isMaximalRun T p s e) := by
  unfold isMaximalRun
  infer_instance

/-- Claim C4: when a position is extracted in range, the message is not the
unexpected-end case, and the character at the position (when it exists) is
not a delimiter, the resolver returns the maximal contiguous delimiter-free
run containing the position. -/
theorem calculateErrorRange_token_run (T M : List Char) (p : Nat)
    (hp : extractPosition M = some p) (hle : p ≤ T.length)
    (hue : includes unexpectedEndLit M = false)
    (hnd : p < T.length → delimiters (T.getD p ' ') = false) :
    ∃ s e, calculateErrorRange T M = some ⟨s, e⟩ ∧ isMaximalRun T p s e := by
  have hnd' : ¬(p < T.length ∧ delimiters (T.getD p ' ') = true) := by
    rintro ⟨hl, hd⟩
    rw [hnd hl] at hd
    exact absurd hd (by simp)
  have hexp := calculateErrorRange_expansion T M p hp hle hue hnd'
  rw [if_neg (expand_no_fallback T p hle hnd)] at hexp
  refine ⟨expandLeft T p, expandRight T p, hexp,
    expandLeft_le T p, expandRight_ge T p, expandRight_le T p hle, ?_,
    expandLeft_boundary T p, expandRight_boundary T p hle⟩
  intro i hie his
  by_cases hip : i < p
  · exact expandLeft_free T p i his hip
  · exact expandRight_free T p i (by omega) hie

/-- The example text of the unquoted-token scenario. -/
def tokenText : List Char := "\x7b\"a\": bad\x7d".toList

/-- The example message of the unquoted-token scenario, carrying position 6. -/
def tokenMsg : List Char := "Unexpected token b in JSON at position 6".toList

/-- Witness for claim C4: on the example text, the error at position 6 is
expanded to the maximal run from 6 to 9 (the token between the space and the
closing brace). -/
theorem calculateErrorRange_token_run_witness :
    (∃ s e, calculateErrorRange tokenText tokenMsg = some ⟨s, e⟩ ∧
      isMaximalRun tokenText 6 s e) ∧
    calculateErrorRange tokenText tokenMsg = some ⟨6, 9⟩ :=
  ⟨calculateErrorRange_token_run tokenText tokenMsg 6
    (by decide) (by decide) (by decide) (by decide), by decide⟩

/-- Claim C5: when the extracted in-range position points at an existing
delimiter character and the message is not the unexpected-end case, the
resolver highlights exactly that one character. -/
theorem calculateErrorRange_delimiter_single (T M : List Char) (p : Nat)
    (hp : extractPosition M = some p) (hlt : p < T.length)
    (hd : delimiters (T.getD p ' ') = true)
    (hue : includes unexpectedEndLit M = false) :
    calculateErrorRange T M = some ⟨p, p + 1⟩ :=
  calculateErrorRange_delim_branch T M p hp hlt hd hue

/-- The example text of the delimiter scenario. -/
def delimText : List Char := "\x7b\"a\":1\x7d".toList

/-- The example message of the delimiter scenario, carrying position 0. -/
def delimMsg : List Char := "Unexpected token , in JSON at position 0".toList

/-- Witness for claim C5: position 0 of the example text holds the opening
brace, a delimiter, so exactly that character is highlighted. -/
theorem calculateErrorRange_delimiter_single_witness :
    calculateErrorRange delimText delimMsg = some ⟨0, 1⟩ :=
  calculateErrorRange_delimiter_single delimText delimMsg 0
    (by decide) (by decide) (by decide) (by decide)

/-- Claim C9: in the token-expansion phase the loops never produce
`start = end` with `end < length`; the degenerate single-character fallback
is unreachable, `start = end` forces both to equal `length`, and the result
is always the final expansion span. -/
theorem expansion_no_degenerate (T M : List Char) (p : Nat)
    (hp : extractPosition M = some p) (hle : p ≤ T.length)
    (hue : includes unexpectedEndLit M = false)
    (hnd : ¬(p < T.length ∧ delimiters (T.getD p ' ') = true)) :
    (expandLeft T p = expandRight T p →
      expandLeft T p = T.length ∧ expandRight T p = T.length) ∧
    ¬(expandLeft T p = expandRight T p ∧ expandRight T p < T.length) ∧
    calculateErrorRange T M = some ⟨expandLeft T p, expandRight T p⟩ := by
  have hnd2 : p < T.length → delimiters (T.getD p ' ') = false := by
    intro hl
    cases hdd : delimiters (T.getD p ' ') with
    | false => rfl
    | true => exact absurd ⟨hl, hdd⟩ hnd
  have hnf := expand_no_fallback T p hle hnd2
  have hexp := calculateErrorRange_expansion T M p hp hle hue hnd
  rw [if_neg hnf] at hexp
  refine ⟨?_, hnf, hexp⟩
  intro heq
  have h2 := expandRight_le T p hle
  have h3 : ¬ expandRight T p < T.length := fun hlt => hnf ⟨heq, hlt⟩
  omega

/-- The plain two-character text of the C9 witness. -/
def plainText : List Char := "ab".toList

/-- The C9 witness message, carrying position 1. -/
def plainMsg : List Char := "at position 1".toList

/-- Witness for claim C9: at position 1 of `"ab"` the expansion spans the
whole token and the degenerate fallback is not taken. -/
theorem expansion_no_degenerate_witness :
    (expandLeft plainText 1 = expandRight plainText 1 →
      expandLeft plainText 1 = plainText.length ∧
      expandRight plainText 1 = plainText.length) ∧
    ¬(expandLeft plainText 1 = expandRight plainText 1 ∧
      expandRight plainText 1 < plainText.length) ∧
    calculateErrorRange plainText plainMsg =
      some ⟨expandLeft plainText 1, expandRight plainText 1⟩ :=
  expansion_no_degenerate plainText plainMsg 1
    (by decide) (by decide) (by decide) (by decide)

/-- Claim C10: when the extracted position equals the text length and the
final character of the text is a delimiter, the resolver returns the empty
span at the end of the text, highlighting no characters. -/
theorem calculateErrorRange_empty_span_at_end (T M : List Char)
    (hne : T ≠ [])
    (hdl : delimiters (T.getD (T.length - 1) ' ') = true)
    (hp : extractPosition M = some T.length)
    (hue : includes unexpectedEndLit M = false) :
    calculateErrorRange T M = some ⟨T.length, T.length⟩ := by
  have hnd : ¬(T.length < T.length ∧ delimiters (T.getD T.length ' ') = true) := by
    rintro ⟨h, _⟩
    omega
  have hexp := calculateErrorRange_expansion T M T.length hp (Nat.le_refl _) hue hnd
  have hpos : 0 < T.length := List.length_pos.mpr hne
  have hL : expandLeft T T.length = T.length := by
    obtain ⟨n, hn⟩ : ∃ n, T.length = n + 1 := ⟨T.length - 1, by omega⟩
    have hdl' : delimiters (T.getD n ' ') = true := by
      have hsub : T.length - 1 = n := by omega
      rwa [hsub] at hdl
    rw [hn]
    simp only [expandLeft]
    rw [if_pos hdl']
  rw [hL, expandRight_at_length, if_neg (by omega)] at hexp
  exact hexp

/-- The C10 witness text, ending in a comma delimiter. -/
def trailingDelimText : List Char := "a,".toList

/-- The C10 witness message, carrying position 2 = length of the text. -/
def trailingDelimMsg : List Char := "x at position 2".toList

/-- Witness for claim C10: on `"a,"` with extracted position 2, the result is
the empty span at offset 2. -/
theorem calculateErrorRange_empty_span_at_end_witness :
    trailingDelimText.length = 2 ∧
    calculateErrorRange trailingDelimText trailingDelimMsg =
      some ⟨trailingDelimText.length, trailingDelimText.length⟩ :=
  ⟨by decide, calculateErrorRange_empty_span_at_end trailingDelimText
    trailingDelimMsg (by decide) (by decide) (by decide) (by decide)⟩

/-! ## Correctness of the line/column mapper (claim C2) -/

theorem glcFold_fst (chars : List Char) : ∀ i line lls : Nat,
    (glcFold chars i line lls).1 = line + chars.count '\n' := by
  induction chars with
  | nil =>
    intro i line lls
    simp [glcFold]
  | cons c rest ih =>
    intro i line lls
    by_cases hc : c = '\n'
    · subst hc
      simp only [glcFold, if_true]
      rw [ih]
      simp [List.count_cons]
      omega
    · simp only [glcFold, if_neg hc]
      rw [ih]
      simp [List.count_cons, hc]

theorem glcFold_snd (chars : List Char) : ∀ i line lls : Nat,
    (glcFold chars i line lls).2 =
      match lastIndexOfNewline chars with
      | some j => i + j + 1
      | none => lls := by
  induction chars with
  | nil =>
    intro i line lls
    simp [glcFold, lastIndexOfNewline]
  | cons c rest ih =>
    intro i line lls
    by_cases hc : c = '\n'
    · subst hc
      simp only [glcFold, if_true]
      rw [ih]
      cases hr : lastIndexOfNewline rest with
      | some j =>
        simp [lastIndexOfNewline, hr]
        omega
      | none =>
        simp [lastIndexOfNewline, hr]
    · simp only [glcFold, if_neg hc]
      rw [ih]
      cases hr : lastIndexOfNewline rest with
      | some j =>
        simp [lastIndexOfNewline, hr]
        omega
      | none =>
        simp [lastIndexOfNewline, hr, hc]

theorem lastIndexOfNewline_eq_none (l : List Char) (h : '\n' ∉ l) :
    lastIndexOfNewline l = none := by
  induction l with
  | nil => rfl
  | cons c rest ih =>
    simp only [List.mem_cons, not_or] at h
    have hcc : ¬ c = '\n' := fun hc => h.1 hc.symm
    simp [lastIndexOfNewline, ih h.2, hcc]

/-- Index immediately after the last newline strictly before offset `o`
(0 when there is none): the specification's `lastLineStart`. -/
def lineStartBefore (T : List Char) (o : Nat) : Nat :=
  match lastIndexOfNewline (T.take o) with
  | some i => i + 1
  | none => 0

theorem lineStartBefore_some (T : List Char) (o j : Nat)
    (h : lastIndexOfNewline (T.take o) = some j) : lineStartBefore T o = j + 1 := by
  unfold lineStartBefore
  rw [h]

theorem lineStartBefore_none (T : List Char) (o : Nat)
    (h : lastIndexOfNewline (T.take o) = none) : lineStartBefore T o = 0 := by
  unfold lineStartBefore
  rw [h]

theorem lineStartBefore_le (T : List Char) (o : Nat) : lineStartBefore T o ≤ o := by
  cases hr : lastIndexOfNewline (T.take o) with
  | some j =>
    rw [lineStartBefore_some T o j hr]
    have h1 := lastIndexOfNewline_lt_length (T.take o) j hr
    have h2 : (T.take o).length ≤ o := by
      rw [List.length_take]
      omega
    omega
  | none =>
    rw [lineStartBefore_none T o hr]
    exact Nat.zero_le o

/-- Claim C2: `getLineAndColumn T o` returns `none` exactly when
`o > length T`; otherwise it returns the line `1 +` the number of newlines
strictly before `o` and the column `o -` the index just after the last
newline before `o` (0 if none) `+ 1`, both at least 1, and in particular
`(1, o + 1)` when no newline precedes `o`. -/
theorem getLineAndColumn_spec (T : List Char) (o : Nat) :
    (getLineAndColumn T o = none ↔ T.length < o) ∧
    (o ≤ T.length →
      getLineAndColumn T o =
        some ⟨(T.take o).count '\n' + 1, o - lineStartBefore T o + 1⟩ ∧
      lineStartBefore T o ≤ o ∧
      (∀ lc, getLineAndColumn T o = some lc → 1 ≤ lc.line ∧ 1 ≤ lc.column) ∧
      ('\n' ∉ T.take o → getLineAndColumn T o = some ⟨1, o + 1⟩)) := by
  constructor
  · by_cases h : T.length < o
    · simp [getLineAndColumn, h]
    · simp [getLineAndColumn, h]
  · intro hle
    have hval : getLineAndColumn T o =
        some ⟨(T.take o).count '\n' + 1, o - lineStartBefore T o + 1⟩ := by
      unfold getLineAndColumn
      rw [if_neg (by omega)]
      have h1 := glcFold_fst (T.take o) 0 1 0
      have h2 := glcFold_snd (T.take o) 0 1 0
      have h3 : (glcFold (T.take o) 0 1 0).2 = lineStartBefore T o := by
        rw [h2]
        cases hr : lastIndexOfNewline (T.take o) with
        | some j =>
          rw [lineStartBefore_some T o j hr]
          show 0 + j + 1 = j + 1
          omega
        | none =>
          rw [lineStartBefore_none T o hr]
      simp only [Option.some.injEq, LineColumn.mk.injEq]
      constructor
      · rw [h1]
        omega
      · rw [h3]
    refine ⟨hval, lineStartBefore_le T o, ?_, ?_⟩
    · intro lc hlc
      rw [hval] at hlc
      simp only [Option.some.injEq] at hlc
      subst hlc
      exact ⟨Nat.le_add_left 1 _, Nat.le_add_left 1 _⟩
    · intro hmem
      rw [hval, lineStartBefore_none T o (lastIndexOfNewline_eq_none (T.take o) hmem),
        List.count_eq_zero.mpr hmem]
      simp

/-- Witness for claim C2: offset 4 of `"ab\ncd"` lies on line 2, column 2. -/
theorem getLineAndColumn_spec_witness :
    getLineAndColumn ("ab\ncd".toList) 4 = some ⟨2, 2⟩ :=
  (((getLineAndColumn_spec ("ab\ncd".toList) 4).2 (by decide)).1).trans (by decide)

/-! ## The JSON tree renderer (`JsonNode` of the viewer component) -/

/-- The parsed value fed to the renderer: `null`, booleans, numbers (carried
as their display text, the `String(nodeData)` of the source), strings,
arrays, and objects as ordered key/value lists (`Object.keys` order, the
key-insertion order of the parse). -/
inductive Json where
  | null : Json
  | bool (b : Bool) : Json
  | num (display : List Char) : Json
  | str (s : List Char) : Json
  | arr (items : List Json) : Json
  | obj (entries : List (List Char × Json)) : Json

/-- Decimal display of a count, as interpolated into the summary text. -/
def natDisplay (n : Nat) : List Char := (toString n).toList

/-- Text content of a collapsed container node:
`opener`, the ellipsis, `closer`, and the element-count summary
`(count label)` with label `items` or `keys`. -/
def collapsedSummary (opener closer : Char) (count : Nat) (label : List Char) :
    List Char :=
  opener :: ("...".toList ++ [closer] ++
    ('(' :: (natDisplay count ++ (' ' :: (label ++ [')'])))))

mutual
/-- The text content rendered by the `JsonNode` component for `nodeData` at
tree path `path` (whose length is the component's `indentLevel`), under the
collapse-state assignment `σ` (the per-node `isCollapsed` flags keyed by
tree position). -/
def JsonNode (σ : List Nat → Bool) : Json → List Nat → List Char
  | Json.null, _ => "null".toList
  | Json.str s, _ => '\"' :: (s ++ ['\"'])
  | Json.num d, _ => d
  | Json.bool b, _ => if b then "true".toList else "false".toList
  | Json.arr items, path =>
    if items.length = 0 then "[]".toList
    else if σ path then collapsedSummary '[' ']' items.length ("items".toList)
    else '[' :: (renderArrItems σ items path 0 items.length ++ [']'])
  | Json.obj entries, path =>
    if entries.length = 0 then "\x7b\x7d".toList
    else if σ path then
      collapsedSummary '\x7b' '\x7d' entries.length ("keys".toList)
    else '\x7b' :: (renderObjEntries σ entries path 0 entries.length ++ ['\x7d'])

/-- The `nodeData.map((item, index) => ...)` loop of the expanded-array
branch: each child at its extended path, suffixed by a comma exactly when
`index < total - 1`. -/
def renderArrItems (σ : List Nat → Bool) :
    List Json → List Nat → Nat → Nat → List Char
  | [], _, _, _ => []
  | item :: rest, path, index, total =>
    JsonNode σ item (path ++ [index]) ++
    (if index < total - 1 then [','] else []) ++
    renderArrItems σ rest path (index + 1) total

/-- The `keys.map((key, index) => ...)` loop of the expanded-object branch:
the quoted key, the `": "` separator, the child at its extended path, and a
comma exactly when `index < total - 1`. -/
def renderObjEntries (σ : List Nat → Bool) :
    List (List Char × Json) → List Nat → Nat → Nat → List Char
  | [], _, _, _ => []
  | (key, value) :: rest, path, index, total =>
    ('\"' :: (key ++ ['\"', ':', ' '])) ++
    JsonNode σ value (path ++ [index]) ++
    (if index < total - 1 then [','] else []) ++
    renderObjEntries σ rest path (index + 1) total
end

/-- The initial collapse state of the `useState(indentLevel > 0)` call: a
node starts collapsed exactly when its depth (path length) is positive. -/
def initialCollapsed (path : List Nat) : Bool := decide (0 < path.length)

/-- Whether the rendered node carries the collapse toggle: only arrays and
objects with at least one element render the clickable chevron span. -/
def collapsible : Json → Bool
  | Json.arr items => decide (0 < items.length)
  | Json.obj entries => decide (0 < entries.length)
  | _ => false

/-- The display of a collapsed container, by variant. -/
def nodeSummary : Json → List Char
  | Json.arr items => collapsedSummary '[' ']' items.length ("items".toList)
  | Json.obj entries => collapsedSummary '\x7b' '\x7d' entries.length ("keys".toList)
  | _ => []

/-- The display of an expanded container (children rendered), by variant. -/
def expandedRender (σ : List Nat → Bool) : Json → List Nat → List Char
  | Json.arr items, path =>
    '[' :: (renderArrItems σ items path 0 items.length ++ [']'])
  | Json.obj entries, path =>
    '\x7b' :: (renderObjEntries σ entries path 0 entries.length ++ ['\x7d'])
  | v, path => JsonNode σ v path

/-! ## Order and separators of expanded children (claim C6) -/

/-- Join child displays with a separating comma after every child except the
last — the specification's reading of the per-index comma rule. -/
def joinComma : List (List Char) → List Char
  | [] => []
  | [x] => x
  | x :: y :: rest => x ++ [','] ++ joinComma (y :: rest)

theorem renderArrItems_eq (σ : List Nat → Bool) :
    ∀ (items : List Json) (path : List Nat) (i : Nat),
      renderArrItems σ items path i (i + items.length) =
        joinComma ((items.enumFrom i).map
          (fun q => JsonNode σ q.2 (path ++ [q.1]))) := by
  intro items
  induction items with
  | nil =>
    intro path i
    simp [renderArrItems, joinComma]
  | cons item rest ih =>
    intro path i
    cases rest with
    | nil =>
      simp only [renderArrItems, List.enumFrom, List.map, joinComma]
      rw [if_neg (by simp)]
      simp
    | cons item2 rest2 =>
      simp only [renderArrItems]
      rw [if_pos (by simp)]
      have htot : i + (item :: item2 :: rest2).length =
          (i + 1) + (item2 :: rest2).length := by
        simp
        omega
      have hih := ih path (i + 1)
      simp only [renderArrItems] at hih
      rw [htot, hih]
      simp only [List.enumFrom, List.map, joinComma]

theorem renderObjEntries_eq (σ : List Nat → Bool) :
    ∀ (entries : List (List Char × Json)) (path : List Nat) (i : Nat),
      renderObjEntries σ entries path i (i + entries.length) =
        joinComma ((entries.enumFrom i).map
          (fun q => ('\"' :: (q.2.1 ++ ['\"', ':', ' '])) ++
            JsonNode σ q.2.2 (path ++ [q.1]))) := by
  intro entries
  induction entries with
  | nil =>
    intro path i
    simp [renderObjEntries, joinComma]
  | cons entry rest ih =>
    intro path i
    obtain ⟨key, value⟩ := entry
    cases rest with
    | nil =>
      simp only [renderObjEntries, List.enumFrom, List.map, joinComma]
      rw [if_neg (by simp)]
      simp
    | cons entry2 rest2 =>
      simp only [renderObjEntries]
      rw [if_pos (by simp)]
      have htot : i + ((key, value) :: entry2 :: rest2).length =
          (i + 1) + (entry2 :: rest2).length := by
        simp
        omega
      have hih := ih path (i + 1)
      simp only [renderObjEntries] at hih
      rw [htot, hih]
      simp only [List.enumFrom, List.map, joinComma]

/-- Claim C6: an expanded non-empty object renders its children in the
entry list's own (key-insertion) order, each prefixed with its quoted key
and `": "`, with a separating comma after every child except the last; an
expanded non-empty array renders its children in index order under the same
comma rule. -/
theorem JsonNode_children_order (σ : List Nat → Bool) (path : List Nat) :
    (∀ entries, entries ≠ [] → σ path = false →
      JsonNode σ (Json.obj entries) path =
        '\x7b' :: (joinComma (entries.enum.map
          (fun q => ('\"' :: (q.2.1 ++ ['\"', ':', ' '])) ++
            JsonNode σ q.2.2 (path ++ [q.1]))) ++ ['\x7d'])) ∧
    (∀ items, items ≠ [] → σ path = false →
      JsonNode σ (Json.arr items) path =
        '[' :: (joinComma (items.enum.map
          (fun q => JsonNode σ q.2 (path ++ [q.1]))) ++ [']'])) := by
  constructor
  · intro entries hne hσ
    simp only [JsonNode]
    rw [if_neg (by simp [hne]), if_neg (by rw [hσ]; simp)]
    have h := renderObjEntries_eq σ entries path 0
    rw [Nat.zero_add] at h
    rw [h, List.enum]
  · intro items hne hσ
    simp only [JsonNode]
    rw [if_neg (by simp [hne]), if_neg (by rw [hσ]; simp)]
    have h := renderArrItems_eq σ items path 0
    rw [Nat.zero_add] at h
    rw [h, List.enum]

/-- The collapse-state assignment with every node expanded. -/
def allExpanded : List Nat → Bool := fun _ => false

/-- A two-entry sample object. -/
def sampleEntries : List (List Char × Json) :=
  [("a".toList, Json.null), ("b".toList, Json.bool true)]

/-- Witness for claim C6: on a concrete two-entry object, the children
appear in entry order with the comma rule, and the rendered text evaluates
to the expected display. -/
theorem JsonNode_children_order_witness :
    (JsonNode allExpanded (Json.obj sampleEntries) [] =
      '\x7b' :: (joinComma (sampleEntries.enum.map
        (fun q => ('\"' :: (q.2.1 ++ ['\"', ':', ' '])) ++
          JsonNode allExpanded q.2.2 ([] ++ [q.1]))) ++ ['\x7d'])) ∧
    JsonNode allExpanded (Json.obj sampleEntries) [] =
      "\x7b\"a\": null,\"b\": true\x7d".toList :=
  ⟨(JsonNode_children_order allExpanded []).1 sampleEntries (by simp [sampleEntries]) rfl,
   by decide⟩

/-! ## Collapsibility and initial collapse state (claim C7) -/

/-- Claim C7: a non-empty array or object renders as a collapsible node
whose initial collapse state (`useState(indentLevel > 0)`) is collapsed
exactly when its depth is positive — under the initial assignment a
container at positive depth shows only its collapsed summary, while at the
root (depth 0, empty path) it shows the expanded form with its children
rendered. -/
theorem JsonNode_initial_collapse (v : Json) (path : List Nat)
    (h : (∃ items, v = Json.arr items ∧ items ≠ []) ∨
         (∃ entries, v = Json.obj entries ∧ entries ≠ [])) :
    collapsible v = true ∧
    (initialCollapsed path = true ↔ 0 < path.length) ∧
    (0 < path.length → JsonNode initialCollapsed v path = nodeSummary v) ∧
    (path = [] →
      JsonNode initialCollapsed v path = expandedRender initialCollapsed v path) := by
  have hσt : ∀ q : List Nat, 0 < q.length → initialCollapsed q = true := by
    intro q hq
    simp [initialCollapsed, hq]
  refine ⟨?_, by simp [initialCollapsed], ?_, ?_⟩
  · rcases h with ⟨items, rfl, hne⟩ | ⟨entries, rfl, hne⟩
    · simp [collapsible, List.length_pos.mpr hne]
    · simp [collapsible, List.length_pos.mpr hne]
  · intro hd
    rcases h with ⟨items, rfl, hne⟩ | ⟨entries, rfl, hne⟩
    · simp only [JsonNode, nodeSummary]
      rw [if_neg (by simp [hne]), if_pos (hσt path hd)]
    · simp only [JsonNode, nodeSummary]
      rw [if_neg (by simp [hne]), if_pos (hσt path hd)]
  · intro hroot
    subst hroot
    have hσf : initialCollapsed [] = false := by simp [initialCollapsed]
    rcases h with ⟨items, rfl, hne⟩ | ⟨entries, rfl, hne⟩
    · simp only [JsonNode, expandedRender]
      rw [if_neg (by simp [hne]), if_neg (by rw [hσf]; simp)]
    · simp only [JsonNode, expandedRender]
      rw [if_neg (by simp [hne]), if_neg (by rw [hσf]; simp)]

/-- Witness for claim C7: a one-element array at depth 1 starts collapsed
and shows the summary `[...](1 items)`; the same value at the root starts
expanded and shows `[null]`. -/
theorem JsonNode_initial_collapse_witness :
    (collapsible (Json.arr [Json.null]) = true ∧
     (initialCollapsed [0] = true ↔ 0 < ([0] : List Nat).length) ∧
     (0 < ([0] : List Nat).length →
       JsonNode initialCollapsed (Json.arr [Json.null]) [0] =
         nodeSummary (Json.arr [Json.null])) ∧
     (([0] : List Nat) = [] →
       JsonNode initialCollapsed (Json.arr [Json.null]) [0] =
         expandedRender initialCollapsed (Json.arr [Json.null]) [0])) ∧
    JsonNode initialCollapsed (Json.arr [Json.null]) [0] =
      "[...](1 items)".toList ∧
    JsonNode initialCollapsed (Json.arr [Json.null]) [] = "[null]".toList :=
  ⟨JsonNode_initial_collapse (Json.arr [Json.null]) [0]
    (Or.inl ⟨[Json.null], rfl, by simp⟩), by decide, by decide⟩

/-! ## Collapse-toggle dynamics with per-instance state (claim C8) -/

/-- The component state of one mounted `JsonNode` instance together with the
state of its currently mounted descendants: the instance's own `isCollapsed`
flag, and the states of its rendered child instances. The children list is
empty while the node is collapsed or a leaf: unrendered children are
unmounted, and an unmounted instance holds no state. -/
inductive NodeState where
  | mk (isCollapsed : Bool) (children : List NodeState)

/-- The `isCollapsed` flag of a mounted instance. -/
def NodeState.isCollapsed : NodeState → Bool
  | NodeState.mk b _ => b

/-- The states of the instance's mounted children. -/
def NodeState.children : NodeState → List NodeState
  | NodeState.mk _ cs => cs

/-- The child values a container renders, in order: the array items, or the
entry values in `Object.keys` order; a leaf renders none. -/
def Json.childValues : Json → List Json
  | Json.arr items => items
  | Json.obj entries => entries.map Prod.snd
  | _ => []

/-- The state of a freshly mounted child instance: its `indentLevel` is at
least 1, so `useState(indentLevel > 0)` starts it collapsed, it renders no
children, and no descendant state exists yet. -/
def freshChild : NodeState := NodeState.mk true []

mutual
/-- The state created when a `JsonNode` for `v` first mounts at depth
`depth`: its flag is `useState(indentLevel > 0)`, and child instances exist
exactly when the node renders them — an expanded container mounts one child
per element, a collapsed node or leaf mounts none. -/
def mountState : Json → Nat → NodeState
  | Json.arr items, depth =>
    NodeState.mk (decide (0 < depth))
      (if 0 < depth then [] else mountList items (depth + 1))
  | Json.obj entries, depth =>
    NodeState.mk (decide (0 < depth))
      (if 0 < depth then [] else mountEntries entries (depth + 1))
  | _, depth => NodeState.mk (decide (0 < depth)) []

def mountList : List Json → Nat → List NodeState
  | [], _ => []
  | v :: rest, depth => mountState v depth :: mountList rest depth

def mountEntries : List (List Char × Json) → Nat → List NodeState
  | [], _ => []
  | (_, v) :: rest, depth => mountState v depth :: mountEntries rest depth
end

/-- Replace the `i`-th element of a state list in place, leaving every other
element untouched. -/
def modifyChild : List NodeState → Nat → (NodeState → NodeState) → List NodeState
  | [], _, _ => []
  | c :: rest, 0, f => f c :: rest
  | c :: rest, i + 1, f => c :: modifyChild rest i f

/-- The effect of the `toggleCollapse` click handler on the state of the
clicked node's subtree. `setIsCollapsed(prev => !prev)` flips that node's
own flag; on the re-render, a node that just collapsed no longer renders its
children, so React unmounts them and their state is discarded, while a node
that just expanded mounts every child fresh — collapsed, with no descendant
state (`freshChild`). A click deeper in the tree (path `i :: rest`) is
handled by the `i`-th mounted child and leaves this node's flag and its
other children untouched. -/
def toggleCollapse (v : Json) : NodeState → List Nat → NodeState
  | st, [] =>
    if st.isCollapsed then
      NodeState.mk false (v.childValues.map (fun _ => freshChild))
    else
      NodeState.mk true []
  | st, i :: rest =>
    NodeState.mk st.isCollapsed
      (modifyChild st.children i
        (fun cst => toggleCollapse (v.childValues.getD i Json.null) cst rest))

/-- The collapse flag a render pass reads for the node at `path`: the flag
of the corresponding mounted instance, or the fresh initial flag where no
instance is mounted (the flag such an instance would mount with). `JsonNode`
only reads this at rendered (hence mounted) positions. -/
def stateAt : NodeState → List Nat → Bool
  | st, [] => st.isCollapsed
  | st, i :: rest => stateAt (st.children.getD i freshChild) rest

/-- The value `[[null]]` of the C8 scenario. -/
def nestedValue : Json := Json.arr [Json.arr [Json.null]]

/-- Its freshly mounted state: root expanded, inner array collapsed. -/
def nestedMount : NodeState := mountState nestedValue 0

/-- The state after the user expands the inner array (a click at path
`[0]`). -/
def nestedExpanded : NodeState := toggleCollapse nestedValue nestedMount [0]

/-- Claim C8 fails as stated: with the inner array of `[[null]]` expanded,
collapsing the root unmounts the inner instance — its collapse state is not
left unchanged but discarded, reverting to the fresh collapsed flag — and
re-expanding the root renders the inner summary, so toggling the root twice
does not return it to its original displayed content. -/
theorem toggleCollapse_remount_counterexample :
    JsonNode (stateAt nestedExpanded) nestedValue [] = "[[null]]".toList ∧
    stateAt nestedExpanded [0] = false ∧
    stateAt (toggleCollapse nestedValue nestedExpanded []) [0] = true ∧
    JsonNode (stateAt (toggleCollapse nestedValue
        (toggleCollapse nestedValue nestedExpanded []) [])) nestedValue [] =
      "[[...](1 items)]".toList ∧
    JsonNode (stateAt (toggleCollapse nestedValue
        (toggleCollapse nestedValue nestedExpanded []) [])) nestedValue [] ≠
      JsonNode (stateAt nestedExpanded) nestedValue [] := by
  decide

theorem modifyChild_length (l : List NodeState) (i : Nat)
    (f : NodeState → NodeState) : (modifyChild l i f).length = l.length := by
  induction l generalizing i with
  | nil => rfl
  | cons c rest ih =>
    cases i with
    | zero => rfl
    | succ k =>
      simp only [modifyChild, List.length_cons]
      rw [ih k]

theorem modifyChild_getD_ne (l : List NodeState) (i j : Nat)
    (f : NodeState → NodeState) (d : NodeState) (h : j ≠ i) :
    (modifyChild l i f).getD j d = l.getD j d := by
  induction l generalizing i j with
  | nil => rfl
  | cons c rest ih =>
    cases i with
    | zero =>
      cases j with
      | zero => exact absurd rfl h
      | succ m => rfl
    | succ k =>
      cases j with
      | zero => rfl
      | succ m =>
        simp only [modifyChild, List.getD_cons_succ]
        exact ih k m (by omega)

/-- Claim C8 (amended): a click flips exactly the clicked node's own flag,
and a click below a node leaves that node's flag and its other children's
state untouched (siblings and ancestors are unaffected); but collapsing
unmounts all of the node's descendants — their state is discarded, not
preserved — and expanding mounts each child fresh in the initial collapsed
state. Hence toggling twice restores the node's state and displayed content
when the node was collapsed (expand then collapse), and when it was expanded
(collapse then expand) it does so exactly when its mounted children were
still in their freshly mounted state. -/
theorem toggleCollapse_reset_behavior (v : Json) (st : NodeState) :
    ((toggleCollapse v st []).isCollapsed = !st.isCollapsed) ∧
    (st.isCollapsed = false → toggleCollapse v st [] = NodeState.mk true []) ∧
    (st.isCollapsed = true →
      toggleCollapse v st [] =
        NodeState.mk false (v.childValues.map (fun _ => freshChild))) ∧
    (st.isCollapsed = true → st.children = [] →
      toggleCollapse v (toggleCollapse v st []) [] = st ∧
      JsonNode (stateAt (toggleCollapse v (toggleCollapse v st []) [])) v [] =
        JsonNode (stateAt st) v []) ∧
    (st.isCollapsed = false →
      (toggleCollapse v (toggleCollapse v st []) [] = st ↔
        st.children = v.childValues.map (fun _ => freshChild))) ∧
    (∀ (i : Nat) (rest : List Nat),
      (toggleCollapse v st (i :: rest)).isCollapsed = st.isCollapsed ∧
      (toggleCollapse v st (i :: rest)).children.length = st.children.length ∧
      (∀ j, j ≠ i →
        (toggleCollapse v st (i :: rest)).children.getD j freshChild =
          st.children.getD j freshChild)) := by
  obtain ⟨b, cs⟩ := st
  refine ⟨?_, ?_, ?_, ?_, ?_, ?_⟩
  · cases b <;> rfl
  · intro hb
    subst hb
    rfl
  · intro hb
    subst hb
    rfl
  · intro hb hcs
    subst hb
    have hcs' : cs = [] := hcs
    subst hcs'
    exact ⟨rfl, rfl⟩
  · intro hb
    subst hb
    show NodeState.mk false (v.childValues.map (fun _ => freshChild)) =
      NodeState.mk false cs ↔ cs = v.childValues.map (fun _ => freshChild)
    constructor
    · intro h
      injection h with h1 h2
      exact h2.symm
    · intro h
      rw [h]
  · intro i rest
    refine ⟨rfl, ?_, ?_⟩
    · show (modifyChild cs i _).length = cs.length
      exact modifyChild_length cs i _
    · intro j hj
      show (modifyChild cs i _).getD j freshChild = cs.getD j freshChild
      exact modifyChild_getD_ne cs i j _ freshChild hj

/-- Witness for claim C8 (amended): expand-then-collapse of a freshly
mounted (collapsed, childless) inner array restores its state and display
exactly, and on the `[[null]]` scenario double-toggling the inner node —
whose mounted child is still fresh — restores the whole tree state. -/
theorem toggleCollapse_reset_behavior_witness :
    (toggleCollapse (Json.arr [Json.null])
        (toggleCollapse (Json.arr [Json.null]) freshChild []) [] = freshChild ∧
      JsonNode (stateAt (toggleCollapse (Json.arr [Json.null])
          (toggleCollapse (Json.arr [Json.null]) freshChild []) []))
          (Json.arr [Json.null]) [] =
        JsonNode (stateAt freshChild) (Json.arr [Json.null]) []) ∧
    toggleCollapse nestedValue
        (toggleCollapse nestedValue nestedExpanded [0]) [0] = nestedExpanded :=
  ⟨(toggleCollapse_reset_behavior (Json.arr [Json.null]) freshChild).2.2.2.1
    rfl rfl, by rfl⟩
